import Mathlib

/-!
Shallow embedding of `drivers/media/i2c/maxim/local/maxim2c/maxim2c_i2c.c`
(Maxim dual GMSL deserializer I2C read/write driver) and proofs about the
properties stated in the specification.

The i2c bus, the device-tree accessors and the devm allocators belong to the
host kernel and are abstracted: a bus transaction is represented by the byte
buffers handed to it, a bus outcome by an oracle argument, and a device-tree
node by an explicit structure.  Machine integers are `Nat` with explicit
reductions modulo `2^w` where the C code stores into a fixed-width field.
-/

namespace Maxim2c

/-- Modulus of the C type `u32`. -/
def U32_MOD : Nat := 4294967296

/-- Modulus of the C type `u16`. -/
def U16_MOD : Nat := 65536

/-- Modulus of the C type `u8`. -/
def U8_MOD : Nat := 256

/-- Linux error number `EINVAL`; the driver returns `-EINVAL`. -/
def EINVAL : Int := 22

/-- Modelled from the spec: the end-of-sequence register address
`MAXIM2C_REG_NULL` comes from the header `maxim2c_api.h`, which is not among
the sources; it is an address constant that fits the `u16 reg_addr` field and
marks the final entry of a register list. -/
def MAXIM2C_REG_NULL : Nat := 0xFFFF

/-- Modelled from the spec: `MAXIM2C_LINK_ID_MAX` from the missing header
`maxim2c_api.h`; the deserializer is dual ("2c"), so it has two GMSL links. -/
def MAXIM2C_LINK_ID_MAX : Nat := 2

/-- The four bytes of `cpu_to_be32 v` in memory order, as scanned by
`maxim2c_i2c_write` (lines 43-48 of `maxim2c_i2c.c`). -/
def cpu_to_be32_bytes (v : Nat) : List Nat :=
  [(v >>> 24) % 256, (v >>> 16) % 256, (v >>> 8) % 256, v % 256]

/-- The two bytes of `cpu_to_be16 reg_addr` in memory order
(`maxim2c_i2c_read`, line 68). -/
def cpu_to_be16_bytes (v : Nat) : List Nat :=
  [(v >>> 8) % 256, v % 256]

/-- `maxim2c_i2c_write` (`maxim2c_i2c.c` lines 18-58): validates `val_len`,
packs the register address (high byte then low byte when `reg_len == 2`, a
single low byte otherwise) followed by the last `val_len` bytes of the
big-endian 32-bit value, and hands the buffer to `i2c_master_send`.  The bus
and its `-EIO` failure are abstracted: `ok` carries the byte buffer given to
the bus.  The length sent is `val_len + reg_len`, which matches the filled
buffer only for `reg_len = 1` or `2`; any other `reg_len` sends uninitialized
or out-of-bounds bytes, modelled as `none`. -/
def maxim2c_i2c_write (reg_addr reg_len val_len reg_val : Nat) :
    Option (Except Int (List Nat)) :=
  if val_len > 4 then some (Except.error (-EINVAL))
  else
    let addr_buf : List Nat :=
      if reg_len == 2 then [(reg_addr >>> 8) % 256, reg_addr % 256]
      else [reg_addr % 256]
    let buf := addr_buf ++ (cpu_to_be32_bytes reg_val).drop (4 - val_len)
    if reg_len == 1 || reg_len == 2 then some (Except.ok buf) else none

/-- `maxim2c_i2c_read` (`maxim2c_i2c.c` lines 62-106): validates `val_len`,
then issues an address message holding the last `reg_len` bytes of the
big-endian 16-bit register address and a read message of `val_len` bytes.
`ok` carries the pair (address bytes, read length); `reg_len > 2` would index
before the start of the 2-byte address buffer, modelled as `none`.  The
transfer itself and its `-EIO` failure are abstracted. -/
def maxim2c_i2c_read (reg_addr reg_len val_len : Nat) :
    Option (Except Int (List Nat × Nat)) :=
  if val_len > 4 || val_len == 0 then some (Except.error (-EINVAL))
  else if reg_len ≤ 2 then
    some (Except.ok ((cpu_to_be16_bytes reg_addr).drop (2 - reg_len), val_len))
  else none

/-- `maxim2c_i2c_update` (`maxim2c_i2c.c` lines 110-126): reads the register,
clears the bits of `val_mask`, ors in `reg_val` masked by `val_mask`, and
writes the result back.  The bus read is an oracle argument (`error` = the
read failed and is propagated); `ok` carries the `u32` value passed to
`maxim2c_i2c_write` at line 122. -/
def maxim2c_i2c_update (read_result : Except Int Nat) (val_mask reg_val : Nat) :
    Except Int Nat :=
  match read_result with
  | Except.error e => Except.error e
  | Except.ok v =>
    let value := v &&& (val_mask ^^^ (U32_MOD - 1))
    let value2 := value ||| (reg_val &&& val_mask)
    Except.ok value2

/-- `maxim2c_i2c_update_reg` (`maxim2c_i2c.c` lines 158-174): the 8-bit
variant, reading through `maxim2c_i2c_read_reg` and writing the combined `u8`
value through `maxim2c_i2c_write_reg`.  `ok` carries the `u8` value passed to
`maxim2c_i2c_write_reg` at line 170. -/
def maxim2c_i2c_update_reg (read_result : Except Int Nat) (val_mask reg_val : Nat) :
    Except Int Nat :=
  match read_result with
  | Except.error e => Except.error e
  | Except.ok v =>
    let value := v &&& (val_mask ^^^ (U8_MOD - 1))
    let value2 := value ||| (reg_val &&& val_mask)
    Except.ok value2

/-- Big-endian `n`-byte encoding of `v`, following the wording of the spec
("big-endian register addressing"): byte `i` carries bits `8 * (n - 1 - i)`
and above.  Spec-side definition, used to compare the buffers built by the
code against the claimed wire format. -/
def specBeBytes (n v : Nat) : List Nat :=
  (List.range n).map (fun i => (v >>> (8 * (n - 1 - i))) % 256)

theorem specBeBytes_one (v : Nat) : specBeBytes 1 v = [v % 256] := by
  simp [specBeBytes, List.range_succ]

theorem specBeBytes_two (v : Nat) : specBeBytes 2 v = cpu_to_be16_bytes v := by
  simp [specBeBytes, List.range_succ, cpu_to_be16_bytes]

theorem specBeBytes_four (v : Nat) : specBeBytes 4 v = cpu_to_be32_bytes v := by
  simp [specBeBytes, List.range_succ, cpu_to_be32_bytes]

/-- C1: `maxim2c_i2c_update` and `maxim2c_i2c_update_reg` implement
read/modify/write: when the underlying read returns `v` (respectively `v8`)
and the bus operations succeed, the value written back is
`(v AND NOT val_mask) OR (reg_val AND val_mask)`, and its bits outside
`val_mask` agree with the bits of the value read. -/
theorem update_read_modify_write
    (v val_mask reg_val v8 m8 r8 : Nat)
    (hm : val_mask < U32_MOD) (hm8 : m8 < U8_MOD) :
    maxim2c_i2c_update (Except.ok v) val_mask reg_val =
      Except.ok ((v &&& (val_mask ^^^ (U32_MOD - 1))) ||| (reg_val &&& val_mask)) ∧
    ((v &&& (val_mask ^^^ (U32_MOD - 1))) ||| (reg_val &&& val_mask)) &&&
        (val_mask ^^^ (U32_MOD - 1)) = v &&& (val_mask ^^^ (U32_MOD - 1)) ∧
    maxim2c_i2c_update_reg (Except.ok v8) m8 r8 =
      Except.ok ((v8 &&& (m8 ^^^ (U8_MOD - 1))) ||| (r8 &&& m8)) ∧
    ((v8 &&& (m8 ^^^ (U8_MOD - 1))) ||| (r8 &&& m8)) &&& (m8 ^^^ (U8_MOD - 1)) =
      v8 &&& (m8 ^^^ (U8_MOD - 1)) := by
  have hmask : ∀ (w : Nat) (m a b : Nat), m < 2 ^ w →
      ((a &&& (m ^^^ (2 ^ w - 1))) ||| (b &&& m)) &&& (m ^^^ (2 ^ w - 1)) =
        a &&& (m ^^^ (2 ^ w - 1)) := by
    intro w m a b hmw
    apply Nat.eq_of_testBit_eq
    intro i
    by_cases hi : i < w
    · have hd : decide (i < w) = true := decide_eq_true hi
      simp only [Nat.testBit_land, Nat.testBit_lor, Nat.testBit_xor,
        Nat.testBit_two_pow_sub_one, hd]
      cases m.testBit i <;> cases a.testBit i <;> cases b.testBit i <;> rfl
    · have hmi : m.testBit i = false :=
        Nat.testBit_eq_false_of_lt
          (lt_of_lt_of_le hmw (Nat.pow_le_pow_right (by norm_num) (le_of_not_lt hi)))
      have hd : decide (i < w) = false := decide_eq_false hi
      simp only [Nat.testBit_land, Nat.testBit_lor, Nat.testBit_xor,
        Nat.testBit_two_pow_sub_one, hd, hmi]
      cases a.testBit i <;> cases b.testBit i <;> rfl
  have h32 : U32_MOD = 2 ^ 32 := by norm_num [U32_MOD]
  have h8 : U8_MOD = 2 ^ 8 := by norm_num [U8_MOD]
  refine ⟨rfl, ?_, rfl, ?_⟩
  · rw [h32]
    exact hmask 32 val_mask v reg_val (h32 ▸ hm)
  · rw [h8]
    exact hmask 8 m8 v8 r8 (h8 ▸ hm8)

theorem update_read_modify_write_witness :
    maxim2c_i2c_update (Except.ok 305419896) 65280 43981 =
      Except.ok ((305419896 &&& (65280 ^^^ (U32_MOD - 1))) ||| (43981 &&& 65280)) :=
  (update_read_modify_write 305419896 65280 43981 165 15 60
    (by decide) (by decide)).1

/-- C2: the wire format is big-endian: a write with `reg_len = 2` sends the
high address byte first and the low byte second (with `reg_len = 1` a single
low byte), followed by the last `val_len` bytes of the big-endian 32-bit
encoding of `reg_val`; a read addresses the register with the last `reg_len`
bytes of the big-endian 16-bit encoding of `reg_addr` and reads `val_len`
bytes. -/
theorem wire_format_big_endian (reg_addr reg_len val_len reg_val : Nat)
    (hv : val_len ≤ 4) (hv0 : 0 < val_len) (hr : reg_len ≤ 2) :
    maxim2c_i2c_write reg_addr 2 val_len reg_val =
      some (Except.ok (specBeBytes 2 reg_addr ++
        (specBeBytes 4 reg_val).drop (4 - val_len))) ∧
    maxim2c_i2c_write reg_addr 1 val_len reg_val =
      some (Except.ok (specBeBytes 1 reg_addr ++
        (specBeBytes 4 reg_val).drop (4 - val_len))) ∧
    maxim2c_i2c_read reg_addr reg_len val_len =
      some (Except.ok ((specBeBytes 2 reg_addr).drop (2 - reg_len), val_len)) := by
  have hnv : ¬ val_len > 4 := by omega
  have hvz : ¬ val_len == 0 := by simp; omega
  refine ⟨?_, ?_, ?_⟩
  · simp [maxim2c_i2c_write, hnv, specBeBytes_two, specBeBytes_four,
      cpu_to_be16_bytes]
  · simp [maxim2c_i2c_write, hnv, specBeBytes_one, specBeBytes_four]
  · simp [maxim2c_i2c_read, hnv, specBeBytes_two, hr, hvz]

theorem wire_format_big_endian_witness :
    maxim2c_i2c_write 4660 2 2 43981 =
      some (Except.ok (specBeBytes 2 4660 ++ (specBeBytes 4 43981).drop (4 - 2))) :=
  (wire_format_big_endian 4660 2 2 43981 (by decide) (by decide) (by decide)).1

/-- C8: validation of the value width is asymmetric: `maxim2c_i2c_read`
returns `-EINVAL` for `val_len = 0` as well as `val_len > 4`, while
`maxim2c_i2c_write` returns `-EINVAL` only for `val_len > 4` and accepts
`val_len = 0`, sending just the address bytes. -/
theorem val_len_validation_asymmetric (reg_addr reg_len val_len reg_val : Nat) :
    ((val_len = 0 ∨ val_len > 4) →
      maxim2c_i2c_read reg_addr reg_len val_len = some (Except.error (-EINVAL))) ∧
    (val_len > 4 →
      maxim2c_i2c_write reg_addr reg_len val_len reg_val =
        some (Except.error (-EINVAL))) ∧
    (val_len ≤ 4 →
      maxim2c_i2c_write reg_addr 2 val_len reg_val =
        some (Except.ok (specBeBytes 2 reg_addr ++
          (specBeBytes 4 reg_val).drop (4 - val_len)))) ∧
    maxim2c_i2c_write reg_addr 2 0 reg_val =
      some (Except.ok (specBeBytes 2 reg_addr)) := by
  refine ⟨?_, ?_, ?_, ?_⟩
  · intro h
    rcases h with h | h
    · subst h
      simp [maxim2c_i2c_read]
    · have : val_len > 4 ∨ val_len == 0 := Or.inl h
      simp [maxim2c_i2c_read, h]
  · intro h
    simp [maxim2c_i2c_write, h]
  · intro h
    have hnv : ¬ val_len > 4 := by omega
    simp [maxim2c_i2c_write, hnv, specBeBytes_two, specBeBytes_four,
      cpu_to_be16_bytes]
  · simp [maxim2c_i2c_write, specBeBytes_two, specBeBytes_four,
      cpu_to_be16_bytes, cpu_to_be32_bytes]

theorem val_len_validation_asymmetric_witness :
    maxim2c_i2c_read 4660 2 0 = some (Except.error (-EINVAL)) :=
  (val_len_validation_asymmetric 4660 2 0 43981).1 (Or.inl rfl)

/-- Modelled from the spec: `struct maxim2c_i2c_regval` from the missing
header `maxim2c_api.h`.  Field widths follow the use of each field:
`maxim2c_i2c_write_array` passes `reg_addr`, `reg_len`, `val_len`, `val_mask`,
`reg_val` to `maxim2c_i2c_write` and `maxim2c_i2c_update`
(`u16 reg_addr`, `u16 reg_len`, `u32 val_len`, `u32 val_mask`, `u32 reg_val`),
and `delay` is one byte of the init sequence (milliseconds). -/
structure maxim2c_i2c_regval where
  reg_addr : Nat
  reg_len : Nat
  val_len : Nat
  val_mask : Nat
  reg_val : Nat
  delay : Nat
deriving Repr, DecidableEq

/-- One observable action of `maxim2c_i2c_write_array`: a call to
`maxim2c_i2c_update`, a call to `maxim2c_i2c_write`, or a delay
(`usleep_range`, argument in milliseconds). -/
inductive BusEvent where
  | updateOp (reg_addr reg_len val_len val_mask reg_val : Nat)
  | writeOp (reg_addr reg_len val_len reg_val : Nat)
  | delayOp (ms : Nat)
deriving Repr, DecidableEq

/-- The bus call `maxim2c_i2c_write_array` makes for one entry
(`maxim2c_i2c.c` lines 183-190): update when `val_mask` is nonzero, plain
write otherwise. -/
def regOp (r : maxim2c_i2c_regval) : BusEvent :=
  if r.val_mask ≠ 0 then
    BusEvent.updateOp r.reg_addr r.reg_len r.val_len r.val_mask r.reg_val
  else
    BusEvent.writeOp r.reg_addr r.reg_len r.val_len r.reg_val

/-- The delay events of one entry (lines 192-193): one delay when `delay`
is nonzero, none otherwise. -/
def regDelay (r : maxim2c_i2c_regval) : List BusEvent :=
  if r.delay ≠ 0 then [BusEvent.delayOp r.delay] else []

/-- `maxim2c_i2c_write_array` (`maxim2c_i2c.c` lines 176-198) over a bus
oracle giving each operation's return code.  The loop runs while the previous
return code is 0 and the entry is not the `MAXIM2C_REG_NULL` terminator; each
iteration issues the entry's operation and then its delay (the delay also runs
when the operation failed, because the loop only exits at the next condition
check).  The result is the final `ret` together with the list of events
issued; a list without a terminator runs off the array in C, modelled as
`none`. -/
def maxim2c_i2c_write_array (bus : BusEvent → Int) :
    List maxim2c_i2c_regval → Option (Int × List BusEvent)
  | [] => none
  | r :: rest =>
    if r.reg_addr == MAXIM2C_REG_NULL then some (0, [])
    else
      let ret := bus (regOp r)
      let evs := regOp r :: regDelay r
      if ret == 0 then
        match maxim2c_i2c_write_array bus rest with
        | none => none
        | some (ret2, evs2) => some (ret2, evs ++ evs2)
      else
        some (ret, evs)

/-- The event trace the spec predicts for a run in which every listed entry is
applied: each entry's operation followed by its delay, in list order. -/
def writeArrayTrace : List maxim2c_i2c_regval → List BusEvent
  | [] => []
  | r :: rs => regOp r :: (regDelay r ++ writeArrayTrace rs)

theorem write_array_cons_ok (bus : BusEvent → Int) (r : maxim2c_i2c_regval)
    (regs : List maxim2c_i2c_regval)
    (hr : r.reg_addr ≠ MAXIM2C_REG_NULL) (h0 : bus (regOp r) = 0) :
    maxim2c_i2c_write_array bus (r :: regs) =
      (maxim2c_i2c_write_array bus regs).map
        (fun p => (p.1, (regOp r :: regDelay r) ++ p.2)) := by
  cases h : maxim2c_i2c_write_array bus regs with
  | none => simp [maxim2c_i2c_write_array, hr, h0, h]
  | some p => cases p with
    | mk a b => simp [maxim2c_i2c_write_array, hr, h0, h]

theorem write_array_cons_err (bus : BusEvent → Int) (r : maxim2c_i2c_regval)
    (regs : List maxim2c_i2c_regval)
    (hr : r.reg_addr ≠ MAXIM2C_REG_NULL) (he : bus (regOp r) ≠ 0) :
    maxim2c_i2c_write_array bus (r :: regs) =
      some (bus (regOp r), regOp r :: regDelay r) := by
  simp [maxim2c_i2c_write_array, hr, he]

theorem write_array_all_ok (bus : BusEvent → Int) (term : maxim2c_i2c_regval)
    (rest : List maxim2c_i2c_regval) (hterm : term.reg_addr = MAXIM2C_REG_NULL) :
    ∀ regs : List maxim2c_i2c_regval,
      (∀ r ∈ regs, r.reg_addr ≠ MAXIM2C_REG_NULL) →
      (∀ r ∈ regs, bus (regOp r) = 0) →
      maxim2c_i2c_write_array bus (regs ++ term :: rest) =
        some (0, writeArrayTrace regs) := by
  intro regs
  induction regs with
  | nil =>
    intro _ _
    simp [maxim2c_i2c_write_array, hterm, writeArrayTrace]
  | cons r rs ih =>
    intro hne hok
    have h1 : r.reg_addr ≠ MAXIM2C_REG_NULL := hne r (List.mem_cons_self r rs)
    have h2 : bus (regOp r) = 0 := hok r (List.mem_cons_self r rs)
    have ih2 := ih (fun x hx => hne x (List.mem_cons_of_mem r hx))
                   (fun x hx => hok x (List.mem_cons_of_mem r hx))
    rw [List.cons_append, write_array_cons_ok bus r (rs ++ term :: rest) h1 h2, ih2]
    simp [writeArrayTrace]

theorem write_array_stops (bus : BusEvent → Int) (term : maxim2c_i2c_regval)
    (rest : List maxim2c_i2c_regval) (hterm : term.reg_addr = MAXIM2C_REG_NULL) :
    ∀ (pre : List maxim2c_i2c_regval) (bad : maxim2c_i2c_regval)
      (post : List maxim2c_i2c_regval),
      (∀ r ∈ pre ++ bad :: post, r.reg_addr ≠ MAXIM2C_REG_NULL) →
      (∀ r ∈ pre, bus (regOp r) = 0) → bus (regOp bad) ≠ 0 →
      maxim2c_i2c_write_array bus ((pre ++ bad :: post) ++ term :: rest) =
        some (bus (regOp bad),
          writeArrayTrace pre ++ regOp bad :: regDelay bad) := by
  intro pre
  induction pre with
  | nil =>
    intro bad post hne _ hbad
    have h1 : bad.reg_addr ≠ MAXIM2C_REG_NULL := hne bad (by simp)
    simp only [List.nil_append, List.cons_append]
    rw [write_array_cons_err bus bad (post ++ term :: rest) h1 hbad]
    simp [writeArrayTrace]
  | cons r rs ih =>
    intro bad post hne hpre hbad
    have h1 : r.reg_addr ≠ MAXIM2C_REG_NULL := hne r (by simp)
    have h2 : bus (regOp r) = 0 := hpre r (by simp)
    have ih2 := ih bad post (fun x hx => hne x (by simp [hx]))
                   (fun x hx => hpre x (by simp [hx])) hbad
    simp only [List.cons_append]
    rw [write_array_cons_ok bus r ((rs ++ bad :: post) ++ term :: rest) h1 h2, ih2]
    simp [writeArrayTrace]

/-- C5: `maxim2c_i2c_write_array` processes a `MAXIM2C_REG_NULL`-terminated
list strictly in order: when every entry succeeds it returns 0 after issuing
each entry's operation (update when `val_mask` is nonzero, plain write when it
is zero) followed by its per-entry delay when nonzero; when an entry fails,
every entry before it was applied in order, the failing entry's error code is
returned, and no operation of any later entry is issued. -/
theorem write_array_strict_order (bus : BusEvent → Int)
    (regs rest : List maxim2c_i2c_regval) (term : maxim2c_i2c_regval)
    (hne : ∀ r ∈ regs, r.reg_addr ≠ MAXIM2C_REG_NULL)
    (hterm : term.reg_addr = MAXIM2C_REG_NULL) :
    ((∀ r ∈ regs, bus (regOp r) = 0) →
      maxim2c_i2c_write_array bus (regs ++ term :: rest) =
        some (0, writeArrayTrace regs)) ∧
    (∀ pre bad post, regs = pre ++ bad :: post →
      (∀ r ∈ pre, bus (regOp r) = 0) → bus (regOp bad) ≠ 0 →
      maxim2c_i2c_write_array bus (regs ++ term :: rest) =
        some (bus (regOp bad),
          writeArrayTrace pre ++ regOp bad :: regDelay bad)) := by
  constructor
  · intro hok
    exact write_array_all_ok bus term rest hterm regs hne hok
  · intro pre bad post hsplit hpre hbad
    subst hsplit
    exact write_array_stops bus term rest hterm pre bad post hne hpre hbad

theorem write_array_strict_order_witness :
    maxim2c_i2c_write_array (fun _ => (0 : Int))
        [⟨16, 2, 1, 0, 171, 0⟩, ⟨MAXIM2C_REG_NULL, 2, 0, 0, 0, 0⟩] =
      some (0, writeArrayTrace [⟨16, 2, 1, 0, 171, 0⟩]) :=
  (write_array_strict_order (fun _ => (0 : Int))
      [⟨16, 2, 1, 0, 171, 0⟩] [] ⟨MAXIM2C_REG_NULL, 2, 0, 0, 0, 0⟩
      (by decide) rfl).1 (fun _ _ => rfl)

/-- The input fields of `struct maxim2c_i2c_init_seq` read by
`maxim2c_i2c_parse_init_seq` (the structure type lives in the missing header
`maxim2c_api.h`; these three fields are filled by `maxim2c_i2c_load_init_seq`
from device-tree properties before parsing). -/
structure maxim2c_i2c_init_seq_header where
  seq_item_size : Nat
  reg_len : Nat
  val_len : Nat
deriving Repr, DecidableEq

/-- One `switch` fallthrough block of `maxim2c_i2c_parse_init_seq`
(`maxim2c_i2c.c` lines 258-275, repeated for `reg_val` and `val_mask`):
composes `len` bytes big-endian, most significant first, and advances the
data pointer by `len`.  A `len` outside 1..4 matches no case, leaves the
value 0 and does not advance the pointer; a list shorter than `len` cannot
arise under the validated sizes (in C it would read out of bounds). -/
def maxim2c_parse_field : Nat → List Nat → Nat × List Nat
  | 4, b3 :: b2 :: b1 :: b0 :: rest =>
    ((b3 <<< 24) ||| ((b2 <<< 16) ||| ((b1 <<< 8) ||| b0)), rest)
  | 3, b2 :: b1 :: b0 :: rest => ((b2 <<< 16) ||| ((b1 <<< 8) ||| b0), rest)
  | 2, b1 :: b0 :: rest => ((b1 <<< 8) ||| b0, rest)
  | 1, b0 :: rest => (b0, rest)
  | _, rest => (0, rest)

/-- The per-item loop of `maxim2c_i2c_parse_init_seq` (lines 251-319): for
each of `n` items, copy `reg_len` and `val_len` from the header into the
entry, then decode `reg_addr` (`reg_len` bytes, stored into the `u16` field),
`reg_val` and `val_mask` (`val_len` bytes each, stored into `u32` fields),
and a one-byte `delay`. -/
def maxim2c_parse_items (reg_len val_len : Nat) :
    Nat → List Nat → List maxim2c_i2c_regval
  | 0, _ => []
  | n + 1, d8 =>
    let pa := maxim2c_parse_field reg_len d8
    let pv := maxim2c_parse_field val_len pa.2
    let pm := maxim2c_parse_field val_len pv.2
    let delay := pm.2.headD 0
    let d4 := pm.2.tail
    { reg_addr := pa.1 % U16_MOD, reg_len := reg_len, val_len := val_len,
      val_mask := pm.1 % U32_MOD, reg_val := pv.1 % U32_MOD, delay := delay } ::
      maxim2c_parse_items reg_len val_len n d4

/-- The terminating entry written at lines 321-323; every field other than
`reg_len` and `reg_addr` keeps the 0 written by the zeroing `devm_kcalloc`. -/
def maxim2c_end_regval (reg_len : Nat) : maxim2c_i2c_regval :=
  { reg_addr := MAXIM2C_REG_NULL, reg_len := reg_len, val_len := 0,
    val_mask := 0, reg_val := 0, delay := 0 }

/-- `maxim2c_i2c_parse_init_seq` (`maxim2c_i2c.c` lines 200-326): validates
its parameters — each failure returns `-EINVAL` before anything is allocated
and before any output field of `init_seq` is written — then decodes
`data_len / seq_item_size` items and appends the `MAXIM2C_REG_NULL`
terminator.  `ok` carries the decoded `reg_init_seq` list together with
`reg_seq_size`.  NULL pointers are `none`; the `-ENOMEM` paths of the devm
allocators are abstracted as succeeding. -/
def maxim2c_i2c_parse_init_seq (seq_data : Option (List Nat)) (data_len : Nat)
    (init_seq : Option maxim2c_i2c_init_seq_header) :
    Except Int (List maxim2c_i2c_regval × Nat) :=
  match seq_data, init_seq with
  | none, _ => Except.error (-EINVAL)
  | _, none => Except.error (-EINVAL)
  | some data, some h =>
    if h.seq_item_size = 0 ∨ data_len = 0 ∨ h.reg_len = 0 ∨ h.val_len = 0 then
      Except.error (-EINVAL)
    else if data_len % h.seq_item_size ≠ 0 then Except.error (-EINVAL)
    else if h.seq_item_size ≠ h.reg_len + h.val_len * 2 + 1 then
      Except.error (-EINVAL)
    else
      let n := data_len / h.seq_item_size
      Except.ok (maxim2c_parse_items h.reg_len h.val_len n data ++
        [maxim2c_end_regval h.reg_len], n + 1)

/-- C3: `maxim2c_i2c_parse_init_seq` fails with `-EINVAL` — allocating nothing
and leaving the output fields of `init_seq` unwritten — whenever `seq_data` or
`init_seq` is NULL, any of `seq_item_size`, `data_len`, `reg_len`, `val_len`
is zero, `data_len` is not a multiple of `seq_item_size`, or `seq_item_size`
differs from `reg_len + val_len * 2 + 1`. -/
theorem parse_init_seq_rejects (seq_data : Option (List Nat)) (data_len : Nat)
    (init_seq : Option maxim2c_i2c_init_seq_header)
    (hbad : seq_data = none ∨ init_seq = none ∨
      ∃ h, init_seq = some h ∧
        (h.seq_item_size = 0 ∨ data_len = 0 ∨ h.reg_len = 0 ∨ h.val_len = 0 ∨
         data_len % h.seq_item_size ≠ 0 ∨
         h.seq_item_size ≠ h.reg_len + h.val_len * 2 + 1)) :
    maxim2c_i2c_parse_init_seq seq_data data_len init_seq =
      Except.error (-EINVAL) := by
  rcases hbad with hd | hi | ⟨h, hi, hcond⟩
  · subst hd
    cases init_seq <;> rfl
  · subst hi
    cases seq_data <;> rfl
  · subst hi
    cases seq_data with
    | none => rfl
    | some data =>
      rcases hcond with h1 | h1 | h1 | h1 | h1 | h1 <;>
      · simp only [maxim2c_i2c_parse_init_seq]
        split_ifs <;> first | rfl | tauto

theorem parse_init_seq_rejects_witness :
    maxim2c_i2c_parse_init_seq (some [1]) 1 (some ⟨4, 1, 1⟩) =
      Except.error (-EINVAL) :=
  parse_init_seq_rejects (some [1]) 1 (some ⟨4, 1, 1⟩)
    (Or.inr (Or.inr ⟨⟨4, 1, 1⟩, rfl, by decide⟩))

/-- Big-endian value of a byte list, following the wording of the spec: most
significant byte first.  Spec-side definition. -/
def specBeVal (bs : List Nat) : Nat := bs.foldl (fun a b => a * 256 + b) 0

/-- The entry the spec predicts for one item of the init sequence, decoded
from the item's consecutive bytes: a big-endian `reg_addr` of `reg_len`
bytes, then a big-endian `reg_val` of `val_len` bytes, then a big-endian
`val_mask` of `val_len` bytes, then a one-byte delay, with `reg_len` and
`val_len` copied from the header.  Spec-side definition. -/
def specItem (reg_len val_len : Nat) (bytes : List Nat) : maxim2c_i2c_regval :=
  { reg_addr := specBeVal (bytes.take reg_len),
    reg_len := reg_len,
    val_len := val_len,
    val_mask := specBeVal ((bytes.drop (reg_len + val_len)).take val_len),
    reg_val := specBeVal ((bytes.drop reg_len).take val_len),
    delay := (bytes.drop (reg_len + val_len + val_len)).headD 0 }

theorem or_shift (a b k : Nat) (hb : b < 2 ^ k) : (a <<< k) ||| b = 2 ^ k * a + b := by
  rw [Nat.shiftLeft_eq, Nat.mul_comm a (2 ^ k), ← Nat.mul_add_lt_is_or hb a]

theorem specBeVal_acc (bs : List Nat) :
    ∀ a : Nat, bs.foldl (fun x b => x * 256 + b) a =
      a * 2 ^ (8 * bs.length) + specBeVal bs := by
  induction bs with
  | nil => intro a; simp [specBeVal]
  | cons b t ih =>
    intro a
    simp only [List.foldl_cons, List.length_cons, specBeVal]
    rw [ih (a * 256 + b), ih (0 * 256 + b)]
    have : 2 ^ (8 * (t.length + 1)) = 2 ^ (8 * t.length) * 256 := by
      rw [Nat.mul_add, Nat.pow_add]
    rw [this]
    ring

theorem specBeVal_cons (b : Nat) (t : List Nat) :
    specBeVal (b :: t) = b * 2 ^ (8 * t.length) + specBeVal t := by
  show List.foldl (fun x b => x * 256 + b) 0 (b :: t) = _
  rw [List.foldl_cons, specBeVal_acc t (0 * 256 + b)]
  ring_nf

theorem specBeVal_lt (bs : List Nat) (hb : ∀ b ∈ bs, b < 256) :
    specBeVal bs < 2 ^ (8 * bs.length) := by
  induction bs with
  | nil => simp [specBeVal]
  | cons b t ih =>
    have hblt : b < 256 := hb b (List.mem_cons_self b t)
    have iht := ih (fun x hx => hb x (List.mem_cons_of_mem b hx))
    calc specBeVal (b :: t) = b * 2 ^ (8 * t.length) + specBeVal t :=
          specBeVal_cons b t
      _ < (b + 1) * 2 ^ (8 * t.length) := by
          rw [Nat.add_mul, Nat.one_mul]
          omega
      _ ≤ 256 * 2 ^ (8 * t.length) := Nat.mul_le_mul_right _ (by omega)
      _ = 2 ^ (8 * (b :: t).length) := by
          rw [List.length_cons, Nat.mul_add, Nat.pow_add]
          ring

theorem parse_field_eq (len : Nat) (d8 : List Nat)
    (h1 : 1 ≤ len) (h4 : len ≤ 4) (hlen : len ≤ d8.length)
    (hb : ∀ b ∈ d8, b < 256) :
    maxim2c_parse_field len d8 = (specBeVal (d8.take len), d8.drop len) := by
  interval_cases len
  · match d8, hlen with
    | b0 :: rest, _ =>
      simp [maxim2c_parse_field, specBeVal]
  · match d8, hlen with
    | b1 :: b0 :: rest, _ =>
      have hb0 : b0 < 256 := hb b0 (by simp)
      have e1 : (b1 <<< 8) ||| b0 = 256 * b1 + b0 := by
        have := or_shift b1 b0 8 (by omega)
        norm_num at this
        exact this
      simp [maxim2c_parse_field, specBeVal, e1]
      omega
  · match d8, hlen with
    | b2 :: b1 :: b0 :: rest, _ =>
      have hb0 : b0 < 256 := hb b0 (by simp)
      have hb1 : b1 < 256 := hb b1 (by simp)
      have e1 : (b1 <<< 8) ||| b0 = 256 * b1 + b0 := by
        have := or_shift b1 b0 8 (by omega)
        norm_num at this
        exact this
      have e2 : (b2 <<< 16) ||| (256 * b1 + b0) = 65536 * b2 + (256 * b1 + b0) := by
        have := or_shift b2 (256 * b1 + b0) 16 (by norm_num; omega)
        norm_num at this ⊢
        omega
      simp [maxim2c_parse_field, specBeVal, e1, e2]
      omega
  · match d8, hlen with
    | b3 :: b2 :: b1 :: b0 :: rest, _ =>
      have hb0 : b0 < 256 := hb b0 (by simp)
      have hb1 : b1 < 256 := hb b1 (by simp)
      have hb2 : b2 < 256 := hb b2 (by simp)
      have e1 : (b1 <<< 8) ||| b0 = 256 * b1 + b0 := by
        have := or_shift b1 b0 8 (by omega)
        norm_num at this
        exact this
      have e2 : (b2 <<< 16) ||| (256 * b1 + b0) = 65536 * b2 + (256 * b1 + b0) := by
        have := or_shift b2 (256 * b1 + b0) 16 (by norm_num; omega)
        norm_num at this ⊢
        omega
      have e3 : (b3 <<< 24) ||| (65536 * b2 + (256 * b1 + b0)) =
          16777216 * b3 + (65536 * b2 + (256 * b1 + b0)) := by
        have := or_shift b3 (65536 * b2 + (256 * b1 + b0)) 24 (by norm_num; omega)
        norm_num at this ⊢
        omega
      simp [maxim2c_parse_field, specBeVal, e1, e2, e3]
      omega

theorem parse_items_eq (reg_len val_len : Nat)
    (hr1 : 1 ≤ reg_len) (hr2 : reg_len ≤ 2)
    (hv1 : 1 ≤ val_len) (hv4 : val_len ≤ 4) :
    ∀ (n : Nat) (data : List Nat),
      data.length = n * (reg_len + val_len * 2 + 1) →
      (∀ b ∈ data, b < 256) →
      maxim2c_parse_items reg_len val_len n data =
        (List.range n).map (fun i =>
          specItem reg_len val_len
            (data.drop (i * (reg_len + val_len * 2 + 1)))) := by
  intro n
  induction n with
  | zero =>
    intro data _ _
    simp [maxim2c_parse_items]
  | succ m ih =>
    intro data hlen hb
    have hexp : (m + 1) * (reg_len + val_len * 2 + 1) =
        m * (reg_len + val_len * 2 + 1) + (reg_len + val_len * 2 + 1) := by ring
    have hsz : reg_len + val_len * 2 + 1 ≤ data.length := by omega
    have hb1 : ∀ b ∈ data.drop reg_len, b < 256 :=
      fun b hx => hb b (List.mem_of_mem_drop hx)
    have hb2 : ∀ b ∈ data.drop (reg_len + val_len), b < 256 :=
      fun b hx => hb b (List.mem_of_mem_drop hx)
    have e1 : maxim2c_parse_field reg_len data =
        (specBeVal (data.take reg_len), data.drop reg_len) :=
      parse_field_eq reg_len data hr1 (by omega) (by omega) hb
    have e2 : maxim2c_parse_field val_len (data.drop reg_len) =
        (specBeVal ((data.drop reg_len).take val_len),
         (data.drop reg_len).drop val_len) :=
      parse_field_eq val_len (data.drop reg_len) hv1 (by omega)
        (by rw [List.length_drop]; omega) hb1
    have e3 : maxim2c_parse_field val_len (data.drop (reg_len + val_len)) =
        (specBeVal ((data.drop (reg_len + val_len)).take val_len),
         (data.drop (reg_len + val_len)).drop val_len) :=
      parse_field_eq val_len (data.drop (reg_len + val_len)) hv1 (by omega)
        (by rw [List.length_drop]; omega) hb2
    have hda : (data.drop reg_len).drop val_len = data.drop (reg_len + val_len) :=
      List.drop_drop val_len reg_len data
    have hdb : (data.drop (reg_len + val_len)).drop val_len =
        data.drop (reg_len + val_len + val_len) :=
      List.drop_drop val_len (reg_len + val_len) data
    have htail : (data.drop (reg_len + val_len + val_len)).tail =
        data.drop (reg_len + val_len + val_len + 1) :=
      List.tail_drop data (reg_len + val_len + val_len)
    have hds : reg_len + val_len + val_len + 1 = reg_len + val_len * 2 + 1 := by
      ring
    have hlen2 : (data.drop (reg_len + val_len * 2 + 1)).length =
        m * (reg_len + val_len * 2 + 1) := by
      rw [List.length_drop]
      omega
    have hb3 : ∀ b ∈ data.drop (reg_len + val_len * 2 + 1), b < 256 :=
      fun b hx => hb b (List.mem_of_mem_drop hx)
    have ihm := ih (data.drop (reg_len + val_len * 2 + 1)) hlen2 hb3
    have hmod1 : specBeVal (data.take reg_len) % U16_MOD =
        specBeVal (data.take reg_len) := by
      apply Nat.mod_eq_of_lt
      have hlt := specBeVal_lt (data.take reg_len)
        (fun b hx => hb b (List.mem_of_mem_take hx))
      have hlen3 : (data.take reg_len).length = reg_len := by
        rw [List.length_take]
        omega
      rw [hlen3] at hlt
      have hle : (2 : Nat) ^ (8 * reg_len) ≤ 2 ^ 16 :=
        Nat.pow_le_pow_right (by norm_num) (by omega)
      have hU : U16_MOD = 2 ^ 16 := by norm_num [U16_MOD]
      omega
    have hmod2 : specBeVal ((data.drop reg_len).take val_len) % U32_MOD =
        specBeVal ((data.drop reg_len).take val_len) := by
      apply Nat.mod_eq_of_lt
      have hlt := specBeVal_lt ((data.drop reg_len).take val_len)
        (fun b hx => hb1 b (List.mem_of_mem_take hx))
      have hlen3 : ((data.drop reg_len).take val_len).length = val_len := by
        rw [List.length_take, List.length_drop]
        omega
      rw [hlen3] at hlt
      have hle : (2 : Nat) ^ (8 * val_len) ≤ 2 ^ 32 :=
        Nat.pow_le_pow_right (by norm_num) (by omega)
      have hU : U32_MOD = 2 ^ 32 := by norm_num [U32_MOD]
      omega
    have hmod3 : specBeVal ((data.drop (reg_len + val_len)).take val_len) % U32_MOD =
        specBeVal ((data.drop (reg_len + val_len)).take val_len) := by
      apply Nat.mod_eq_of_lt
      have hlt := specBeVal_lt ((data.drop (reg_len + val_len)).take val_len)
        (fun b hx => hb2 b (List.mem_of_mem_take hx))
      have hlen3 : ((data.drop (reg_len + val_len)).take val_len).length = val_len := by
        rw [List.length_take, List.length_drop]
        omega
      rw [hlen3] at hlt
      have hle : (2 : Nat) ^ (8 * val_len) ≤ 2 ^ 32 :=
        Nat.pow_le_pow_right (by norm_num) (by omega)
      have hU : U32_MOD = 2 ^ 32 := by norm_num [U32_MOD]
      omega
    have hhead : maxim2c_parse_items reg_len val_len (m + 1) data =
        ({ reg_addr := specBeVal (data.take reg_len) % U16_MOD,
           reg_len := reg_len, val_len := val_len,
           val_mask := specBeVal ((data.drop (reg_len + val_len)).take val_len) % U32_MOD,
           reg_val := specBeVal ((data.drop reg_len).take val_len) % U32_MOD,
           delay := (data.drop (reg_len + val_len + val_len)).headD 0 } :
          maxim2c_i2c_regval) ::
          maxim2c_parse_items reg_len val_len m
            (data.drop (reg_len + val_len * 2 + 1)) := by
      simp only [maxim2c_parse_items, e1, e2, hda, e3, hdb, htail, hds]
    rw [hhead, ihm, List.range_succ_eq_map, List.map_cons, List.map_map]
    congr 1
    · simp only [Nat.zero_mul, List.drop_zero, specItem, hmod1, hmod2, hmod3]
    · congr 1
      funext i
      simp only [Function.comp_apply]
      have hmul : Nat.succ i * (reg_len + val_len * 2 + 1) =
          (reg_len + val_len * 2 + 1) + i * (reg_len + val_len * 2 + 1) := by
        simp only [Nat.succ_eq_add_one]
        ring
      have hdd : (data.drop (reg_len + val_len * 2 + 1)).drop
          (i * (reg_len + val_len * 2 + 1)) =
          data.drop ((reg_len + val_len * 2 + 1) + i * (reg_len + val_len * 2 + 1)) :=
        List.drop_drop (i * (reg_len + val_len * 2 + 1)) (reg_len + val_len * 2 + 1)
          data
      rw [hmul, hdd]

/-- C4: on success over a byte sequence of length `N * seq_item_size` with
valid sizes, `maxim2c_i2c_parse_init_seq` produces exactly `N + 1` entries:
entry `i` (`i < N`) is decoded from the consecutive bytes of item `i` as a
big-endian `reg_addr` of `reg_len` bytes, then a big-endian `reg_val` of
`val_len` bytes, then a big-endian `val_mask` of `val_len` bytes, then a
one-byte delay, with `reg_len` and `val_len` copied from the header; the
final entry has `reg_addr = MAXIM2C_REG_NULL` as terminator. -/
theorem parse_init_seq_decodes (h : maxim2c_i2c_init_seq_header)
    (data : List Nat) (N : Nat)
    (hr1 : 1 ≤ h.reg_len) (hr2 : h.reg_len ≤ 2)
    (hv1 : 1 ≤ h.val_len) (hv4 : h.val_len ≤ 4)
    (hisz : h.seq_item_size = h.reg_len + h.val_len * 2 + 1)
    (hN : 0 < N) (hlen : data.length = N * h.seq_item_size)
    (hb : ∀ b ∈ data, b < 256) :
    maxim2c_i2c_parse_init_seq (some data) data.length (some h) =
      Except.ok ((List.range N).map (fun i =>
          specItem h.reg_len h.val_len (data.drop (i * h.seq_item_size))) ++
        [maxim2c_end_regval h.reg_len], N + 1) ∧
    (maxim2c_end_regval h.reg_len).reg_addr = MAXIM2C_REG_NULL := by
  have hszpos : 0 < h.seq_item_size := by omega
  constructor
  · have hc1 : ¬ (h.seq_item_size = 0 ∨ data.length = 0 ∨
        h.reg_len = 0 ∨ h.val_len = 0) := by
      push_neg
      refine ⟨by omega, ?_, by omega, by omega⟩
      have := Nat.mul_pos hN hszpos
      omega
    have hc2 : ¬ data.length % h.seq_item_size ≠ 0 := by
      rw [hlen]
      simp [Nat.mul_mod_left]
    have hc3 : ¬ h.seq_item_size ≠ h.reg_len + h.val_len * 2 + 1 := by
      simp [hisz]
    simp only [maxim2c_i2c_parse_init_seq]
    rw [if_neg hc1, if_neg hc2, if_neg hc3, hisz]
    have hdiv : data.length / (h.reg_len + h.val_len * 2 + 1) = N := by
      rw [hlen, hisz]
      exact Nat.mul_div_cancel N (by omega)
    rw [hdiv, parse_items_eq h.reg_len h.val_len hr1 hr2 hv1 hv4 N data
      (by rw [hlen, hisz]) hb]
  · rfl

theorem parse_init_seq_decodes_witness :
    maxim2c_i2c_parse_init_seq (some [170, 18, 52, 255, 0, 5]) 6 (some ⟨6, 1, 2⟩) =
      Except.ok ((List.range 1).map (fun i =>
          specItem 1 2 ([170, 18, 52, 255, 0, 5].drop (i * 6))) ++
        [maxim2c_end_regval 1], 1 + 1) :=
  (parse_init_seq_decodes ⟨6, 1, 2⟩ [170, 18, 52, 255, 0, 5] 1
    (by decide) (by decide) (by decide) (by decide) (by decide) (by decide)
    (by decide) (by decide)).1

/-- The driver's software mux state, the `i2c_mux` member of `maxim2c_t`
(declared in the missing header `maxim2c_api.h`): `i2c_mux_mask` is a `u32`,
`mux_disable` a flag, and `mux_channel` a C `int` (it is set to -1). -/
structure maxim2c_i2c_mux_state where
  i2c_mux_mask : Nat
  mux_disable : Bool
  mux_channel : Int
deriving Repr, DecidableEq

/-- The `u32` value of a C `int`, as produced by the usual arithmetic
conversion in the comparison `mux_channel == chan` of line 427. -/
def int_as_u32 (x : Int) : Nat := (x % (4294967296 : Int)).toNat

/-- `maxim2c_i2c_mux_select` (`maxim2c_i2c.c` lines 412-439): returns 0 with
the state untouched when the mux is disabled; returns 0 with the state
untouched when the requested channel equals the cached `mux_channel` (the C
comparison converts the `int` to `u32`); otherwise records the new channel
and issues the remote channel-select control `BIT(chan)` through
`maxim2c_link_select_remote_control`, modelled by the oracle `remote` (its
body is outside this translation unit).  The third component lists the
control values issued. -/
def maxim2c_i2c_mux_select (remote : Nat → Int) (s : maxim2c_i2c_mux_state)
    (chan : Nat) : Int × maxim2c_i2c_mux_state × List Nat :=
  if s.mux_disable then (0, s, [])
  else if int_as_u32 s.mux_channel == chan then (0, s, [])
  else
    let s2 := { s with mux_channel := (chan : Int) }
    let ret := remote (2 ^ chan)
    if ret ≠ 0 then (ret, s2, [2 ^ chan])
    else (0, s2, [2 ^ chan])

/-- `maxim2c_i2c_mux_deselect` (lines 441-463): returns 0 with the state
untouched when the mux is disabled; otherwise issues the remote control 0. -/
def maxim2c_i2c_mux_deselect (remote : Nat → Int) (s : maxim2c_i2c_mux_state)
    (chan : Nat) : Int × maxim2c_i2c_mux_state × List Nat :=
  if s.mux_disable then (0, s, [])
  else
    let ret := remote 0
    if ret ≠ 0 then (ret, s, [0])
    else (0, s, [0])

/-- `maxim2c_i2c_mux_enable` (lines 483-501): issues the remote control
`def_mask`; on success clears `mux_disable` and resets `mux_channel` to -1. -/
def maxim2c_i2c_mux_enable (remote : Nat → Int) (s : maxim2c_i2c_mux_state)
    (def_mask : Nat) : Int × maxim2c_i2c_mux_state :=
  let ret := remote def_mask
  if ret ≠ 0 then (ret, s)
  else (0, { s with mux_disable := false, mux_channel := -1 })

/-- `maxim2c_i2c_mux_deinit` (lines 576-587): deletes the mux adapters (host
framework objects, abstracted away) and resets the software state; always
returns 0. -/
def maxim2c_i2c_mux_deinit (s : maxim2c_i2c_mux_state) :
    Int × maxim2c_i2c_mux_state :=
  (0, { s with i2c_mux_mask := 0, mux_disable := false, mux_channel := -1 })

/-- A child node of the `i2c-mux` device-tree node: its `reg` property when
present (`of_property_read_u32` leaves the preset id 0 in place when the
property is absent) and its availability. -/
structure DTChild where
  reg : Option Nat
  available : Bool
deriving Repr, DecidableEq

/-- The loop body of `maxim2c_i2c_mux_mask` (lines 519-532): skip children
whose id reaches `MAXIM2C_LINK_ID_MAX` and disabled children; or `BIT(id)`
into the mask otherwise. -/
def maxim2c_mux_mask_step (mask : Nat) (node : DTChild) : Nat :=
  let id := node.reg.getD 0
  if id ≥ MAXIM2C_LINK_ID_MAX then mask
  else if !node.available then mask
  else mask ||| 2 ^ id

/-- `maxim2c_i2c_mux_mask` (`maxim2c_i2c.c` lines 503-537): with no
`i2c-mux` device-tree node the function returns `-EINVAL` although its
return type is `u32`, so the caller receives `(u32)(-EINVAL) = 0xFFFFFFEA`;
with a node it folds `BIT(id)` over the children. -/
def maxim2c_i2c_mux_mask (i2c_mux : Option (List DTChild)) : Nat :=
  match i2c_mux with
  | none => 4294967296 - 22
  | some children => children.foldl maxim2c_mux_mask_step 0

/-- The tail of `maxim2c_i2c_mux_init` (lines 568-572): the computed mask is
stored unchanged into `i2c_mux_mask` and the function returns 0.  The earlier
i2c-functionality check and adapter allocation act only on host-framework
objects and are abstracted as succeeding (their failures return before the
mask is computed). -/
def maxim2c_i2c_mux_init (s : maxim2c_i2c_mux_state)
    (i2c_mux : Option (List DTChild)) : Int × maxim2c_i2c_mux_state :=
  (0, { s with i2c_mux_mask := maxim2c_i2c_mux_mask i2c_mux })

/-- C6 counterexample: with the mux enabled (`mux_disable = false`) and the
cached `mux_channel` equal to the requested channel, `maxim2c_i2c_mux_select`
issues no remote-control operation at all, refuting the claim that every
select on an enabled mux issues `BIT(chan)` regardless of the previously
selected channel. -/
theorem mux_select_no_reissue_counterexample :
    (⟨0, false, 0⟩ : maxim2c_i2c_mux_state).mux_disable = false ∧
    maxim2c_i2c_mux_select (fun _ => 0) ⟨0, false, 0⟩ 0 =
      (0, ⟨0, false, 0⟩, []) := by
  constructor
  · rfl
  · decide

/-- C6 (amended): the select callback caches the selected channel: on an
enabled mux it issues the remote channel-select control `BIT(chan)` exactly
when the requested channel differs from the cached `mux_channel` (compared
as `u32`), recording the new channel; when the cached channel already equals
`chan` it returns 0 without issuing any remote-control operation and without
modifying the state. -/
theorem mux_select_caches_channel (remote : Nat → Int)
    (s : maxim2c_i2c_mux_state) (chan : Nat)
    (hen : s.mux_disable = false) :
    (int_as_u32 s.mux_channel = chan →
      maxim2c_i2c_mux_select remote s chan = (0, s, [])) ∧
    (int_as_u32 s.mux_channel ≠ chan →
      (maxim2c_i2c_mux_select remote s chan).2.2 = [2 ^ chan] ∧
      (maxim2c_i2c_mux_select remote s chan).2.1 =
        { s with mux_channel := (chan : Int) }) := by
  constructor
  · intro h
    simp [maxim2c_i2c_mux_select, hen, h]
  · intro h
    by_cases hr : remote (2 ^ chan) ≠ 0 <;>
      simp [maxim2c_i2c_mux_select, hen, h, hr]

theorem mux_select_caches_channel_witness :
    (maxim2c_i2c_mux_select (fun _ => 0) ⟨0, false, -1⟩ 0).2.2 = [2 ^ 0] ∧
    (maxim2c_i2c_mux_select (fun _ => 0) ⟨0, false, -1⟩ 0).2.1 =
      { (⟨0, false, -1⟩ : maxim2c_i2c_mux_state) with
          mux_channel := ((0 : Nat) : Int) } :=
  (mux_select_caches_channel (fun _ => 0) ⟨0, false, -1⟩ 0 rfl).2 (by decide)

/-- C7: lifecycle resets: after a successful `maxim2c_i2c_mux_enable` the
state has `mux_disable = false` and `mux_channel = -1`;
`maxim2c_i2c_mux_deinit` always returns 0 and leaves `i2c_mux_mask = 0`,
`mux_disable = false` and `mux_channel = -1`. -/
theorem mux_lifecycle_reset (remote : Nat → Int) (s : maxim2c_i2c_mux_state)
    (def_mask : Nat) :
    ((maxim2c_i2c_mux_enable remote s def_mask).1 = 0 →
      (maxim2c_i2c_mux_enable remote s def_mask).2.mux_disable = false ∧
      (maxim2c_i2c_mux_enable remote s def_mask).2.mux_channel = -1) ∧
    ((maxim2c_i2c_mux_deinit s).1 = 0 ∧
     (maxim2c_i2c_mux_deinit s).2.i2c_mux_mask = 0 ∧
     (maxim2c_i2c_mux_deinit s).2.mux_disable = false ∧
     (maxim2c_i2c_mux_deinit s).2.mux_channel = -1) := by
  constructor
  · intro h
    by_cases hr : remote def_mask ≠ 0
    · exfalso
      simp [maxim2c_i2c_mux_enable, hr] at h
    · simp [maxim2c_i2c_mux_enable, hr]
  · simp [maxim2c_i2c_mux_deinit]

theorem mux_lifecycle_reset_witness :
    (maxim2c_i2c_mux_enable (fun _ => 0) ⟨5, true, 3⟩ 255).2.mux_disable = false ∧
    (maxim2c_i2c_mux_enable (fun _ => 0) ⟨5, true, 3⟩ 255).2.mux_channel = -1 :=
  (mux_lifecycle_reset (fun _ => 0) ⟨5, true, 3⟩ 255).1 (by decide)

/-- C9: on a disabled mux (`mux_disable = true`) both callbacks report
success without bus traffic: select and deselect return 0, leave the state —
in particular `mux_channel` — unchanged, and issue no remote-control
operation. -/
theorem mux_disabled_noop (remote : Nat → Int) (s : maxim2c_i2c_mux_state)
    (chan : Nat) (hdis : s.mux_disable = true) :
    maxim2c_i2c_mux_select remote s chan = (0, s, []) ∧
    maxim2c_i2c_mux_deselect remote s chan = (0, s, []) := by
  constructor <;>
    simp [maxim2c_i2c_mux_select, maxim2c_i2c_mux_deselect, hdis]

theorem mux_disabled_noop_witness :
    maxim2c_i2c_mux_select (fun _ => -5) ⟨0, true, -1⟩ 1 =
      (0, ⟨0, true, -1⟩, []) :=
  (mux_disabled_noop (fun _ => -5) ⟨0, true, -1⟩ 1 rfl).1

theorem mux_mask_step_testBit (acc : Nat) (c : DTChild) (b : Nat) :
    ((maxim2c_mux_mask_step acc c).testBit b = true) ↔
      (acc.testBit b = true ∨
        (c.available = true ∧ c.reg.getD 0 = b ∧ b < MAXIM2C_LINK_ID_MAX)) := by
  by_cases h1 : c.reg.getD 0 ≥ MAXIM2C_LINK_ID_MAX
  · rw [maxim2c_mux_mask_step, if_pos h1]
    constructor
    · exact Or.inl
    · rintro (h | ⟨_, hid, hb⟩)
      · exact h
      · omega
  · rw [maxim2c_mux_mask_step, if_neg h1]
    cases hav : c.available with
    | false =>
      simp only [hav, Bool.not_false, if_pos]
      constructor
      · exact Or.inl
      · rintro (h | ⟨hfalse, _, _⟩)
        · exact h
        · exact absurd hfalse (by simp)
    | true =>
      simp only [hav, Bool.not_true, Bool.false_eq_true, if_false]
      by_cases hid : c.reg.getD 0 = b
      · constructor
        · intro _
          exact Or.inr ⟨trivial, hid, by omega⟩
        · intro _
          rw [hid]
          simp [Nat.testBit_lor, Nat.testBit_two_pow_self]
      · simp only [Nat.testBit_lor, Nat.testBit_two_pow_of_ne hid, Bool.or_false]
        constructor
        · exact Or.inl
        · rintro (h | ⟨_, hid2, _⟩)
          · exact h
          · exact absurd hid2 hid

theorem mux_mask_fold_testBit (children : List DTChild) (b : Nat) :
    ∀ acc : Nat,
      ((children.foldl maxim2c_mux_mask_step acc).testBit b = true) ↔
        (acc.testBit b = true ∨
          ∃ c ∈ children, c.available = true ∧ c.reg.getD 0 = b ∧
            b < MAXIM2C_LINK_ID_MAX) := by
  induction children with
  | nil =>
    intro acc
    simp
  | cons c cs ih =>
    intro acc
    rw [List.foldl_cons, ih (maxim2c_mux_mask_step acc c)]
    rw [mux_mask_step_testBit]
    constructor
    · rintro ((h | hc) | hex)
      · exact Or.inl h
      · exact Or.inr ⟨c, List.mem_cons_self c cs, hc⟩
      · rcases hex with ⟨x, hx, hx2⟩
        exact Or.inr ⟨x, List.mem_cons_of_mem c hx, hx2⟩
    · rintro (h | ⟨x, hx, hx2⟩)
      · exact Or.inl (Or.inl h)
      · rcases List.mem_cons.mp hx with rfl | hx3
        · exact Or.inl (Or.inr hx2)
        · exact Or.inr ⟨x, hx3, hx2⟩

/-- C10: `maxim2c_i2c_mux_mask` has return type `u32` but returns `-EINVAL`
when no `i2c-mux` device-tree node is found, yielding `0xFFFFFFEA` rather
than an empty mask; `maxim2c_i2c_mux_init` stores this value unchanged into
`i2c_mux_mask` and still returns 0.  When the node exists, the result is the
or of `BIT(id)` over every available child whose `reg` id is below
`MAXIM2C_LINK_ID_MAX`. -/
theorem mux_mask_einval_and_bits (s : maxim2c_i2c_mux_state)
    (children : List DTChild) (b : Nat) :
    maxim2c_i2c_mux_mask none = 0xFFFFFFEA ∧
    (maxim2c_i2c_mux_init s none).2.i2c_mux_mask = 0xFFFFFFEA ∧
    (maxim2c_i2c_mux_init s none).1 = 0 ∧
    ((maxim2c_i2c_mux_mask (some children)).testBit b = true ↔
      ∃ c ∈ children, c.available = true ∧ c.reg.getD 0 = b ∧
        b < MAXIM2C_LINK_ID_MAX) := by
  refine ⟨rfl, rfl, rfl, ?_⟩
  show ((children.foldl maxim2c_mux_mask_step 0).testBit b = true) ↔ _
  rw [mux_mask_fold_testBit children b 0]
  simp [Nat.zero_testBit]

theorem mux_mask_einval_and_bits_witness :
    (maxim2c_i2c_mux_mask
        (some [⟨some 0, true⟩, ⟨some 1, false⟩])).testBit 0 = true ↔
      ∃ c ∈ [(⟨some 0, true⟩ : DTChild), ⟨some 1, false⟩],
        c.available = true ∧ c.reg.getD 0 = 0 ∧ 0 < MAXIM2C_LINK_ID_MAX :=
  (mux_mask_einval_and_bits ⟨0, false, 0⟩
    [⟨some 0, true⟩, ⟨some 1, false⟩] 0).2.2.2

end Maxim2c
